import Mathlib

/-!
Verification of the card-compositing pipeline of `generate-card-images`.

The definitions below are a shallow embedding of the Python sources
(`card_generator.py`, `generate_all_cards.py`, `utils.py`).  Machine
integers are modelled as `Nat`/`Int`; Python float arithmetic followed by
`int(...)` truncation is modelled over `ℚ` with truncation toward zero;
fallible code returns `Except`.  PIL primitives that the repository calls
but does not define (`Image.paste` with an alpha mask, `putalpha`,
`ImageDraw.rounded_rectangle`) are modelled from the spec, as flagged in
their doc comments.
-/

/-- Truncation toward zero, the behaviour of Python `int(...)` on a real value. -/
def pyTrunc (q : ℚ) : ℤ := if q < 0 then ⌈q⌉ else ⌊q⌋

/-- Embedding of `determine_font_size` (card_generator.py, lines 15-38):
adaptive font size from text length, with truncated linear interpolation
between the two thresholds. -/
def determine_font_size (text : String) (min_char_size max_char_size min_font_size max_font_size : ℤ) : ℤ :=
  let text_length : ℤ := text.length
  if text_length < min_char_size then
    max_font_size
  else if text_length > max_char_size then
    min_font_size
  else
    pyTrunc ((max_font_size : ℚ)
      - ((text_length : ℚ) - (min_char_size : ℚ))
        * ((max_font_size : ℚ) - (min_font_size : ℚ))
        / ((max_char_size : ℚ) - (min_char_size : ℚ)))

/-- A 100-character text, for Scenario B. -/
def text100 : String := String.mk (List.replicate 100 'a')

/-- A 150-character text, for Scenario B. -/
def text150 : String := String.mk (List.replicate 150 'a')

/-- A 200-character text, for Scenario B. -/
def text200 : String := String.mk (List.replicate 200 'a')

lemma pyTrunc_intCast (n : ℤ) : pyTrunc (n : ℚ) = n := by
  unfold pyTrunc
  by_cases h : ((n : ℚ) < 0)
  · rw [if_pos h, Int.ceil_intCast]
  · rw [if_neg h, Int.floor_intCast]

lemma pyTrunc_natCast (n : ℕ) : pyTrunc ((n : ℕ) : ℚ) = (n : ℤ) := by
  have h : ((n : ℚ)) = (((n : ℤ)) : ℚ) := by push_cast; ring
  rw [h, pyTrunc_intCast]

lemma pyTrunc_mono {q1 q2 : ℚ} (h : q1 ≤ q2) : pyTrunc q1 ≤ pyTrunc q2 := by
  by_cases h1 : q1 < 0
  · by_cases h2 : q2 < 0
    · simp only [pyTrunc, if_pos h1, if_pos h2]
      exact Int.ceil_le_ceil h
    · simp only [pyTrunc, if_pos h1, if_neg h2]
      have ha : ⌈q1⌉ ≤ 0 := Int.ceil_le.mpr (by exact_mod_cast h1.le)
      have hb : (0 : ℤ) ≤ ⌊q2⌋ := Int.floor_nonneg.mpr (not_lt.mp h2)
      omega
  · have h2 : ¬ q2 < 0 := fun hq => h1 (lt_of_le_of_lt h hq)
    simp only [pyTrunc, if_neg h1, if_neg h2]
    exact Int.floor_le_floor h

section FontSize

variable {minc maxc minf maxf : ℤ}

lemma dfs_mid_bounds (h1 : minc < maxc) (h2 : minf ≤ maxf) {l : ℤ}
    (hlo : minc ≤ l) (hhi : l ≤ maxc) :
    minf ≤ pyTrunc ((maxf : ℚ)
        - ((l : ℚ) - (minc : ℚ)) * ((maxf : ℚ) - (minf : ℚ)) / ((maxc : ℚ) - (minc : ℚ)))
    ∧ pyTrunc ((maxf : ℚ)
        - ((l : ℚ) - (minc : ℚ)) * ((maxf : ℚ) - (minf : ℚ)) / ((maxc : ℚ) - (minc : ℚ))) ≤ maxf := by
  have hL : (0 : ℚ) < (maxc : ℚ) - (minc : ℚ) := by
    linarith [(by exact_mod_cast h1 : (minc : ℚ) < (maxc : ℚ))]
  have hk0 : (0 : ℚ) ≤ (l : ℚ) - (minc : ℚ) := by
    linarith [(by exact_mod_cast hlo : (minc : ℚ) ≤ (l : ℚ))]
  have hkL : (l : ℚ) - (minc : ℚ) ≤ (maxc : ℚ) - (minc : ℚ) := by
    linarith [(by exact_mod_cast hhi : (l : ℚ) ≤ (maxc : ℚ))]
  have hd0 : (0 : ℚ) ≤ (maxf : ℚ) - (minf : ℚ) := by
    linarith [(by exact_mod_cast h2 : (minf : ℚ) ≤ (maxf : ℚ))]
  have hnum0 : (0 : ℚ) ≤ ((l : ℚ) - (minc : ℚ)) * ((maxf : ℚ) - (minf : ℚ)) / ((maxc : ℚ) - (minc : ℚ)) :=
    div_nonneg (mul_nonneg hk0 hd0) hL.le
  have hnumhi : ((l : ℚ) - (minc : ℚ)) * ((maxf : ℚ) - (minf : ℚ)) / ((maxc : ℚ) - (minc : ℚ))
      ≤ (maxf : ℚ) - (minf : ℚ) := by
    rw [div_le_iff₀ hL]
    nlinarith
  constructor
  · have : ((minf : ℤ) : ℚ) ≤ (maxf : ℚ)
        - ((l : ℚ) - (minc : ℚ)) * ((maxf : ℚ) - (minf : ℚ)) / ((maxc : ℚ) - (minc : ℚ)) := by
      linarith
    calc minf = pyTrunc ((minf : ℤ) : ℚ) := (pyTrunc_intCast minf).symm
      _ ≤ _ := pyTrunc_mono this
  · have : (maxf : ℚ)
        - ((l : ℚ) - (minc : ℚ)) * ((maxf : ℚ) - (minf : ℚ)) / ((maxc : ℚ) - (minc : ℚ))
        ≤ ((maxf : ℤ) : ℚ) := by
      linarith
    calc pyTrunc _ ≤ pyTrunc ((maxf : ℤ) : ℚ) := pyTrunc_mono this
      _ = maxf := pyTrunc_intCast maxf

lemma dfs_high (h1 : minc < maxc) (t : String) (h : (t.length : ℤ) ≤ minc) :
    determine_font_size t minc maxc minf maxf = maxf := by
  unfold determine_font_size
  by_cases hlt : (t.length : ℤ) < minc
  · rw [if_pos hlt]
  · have heq : (t.length : ℤ) = minc := le_antisymm h (not_lt.mp hlt)
    rw [if_neg hlt, if_neg (by omega)]
    have hz : ((t.length : ℤ) : ℚ) - (minc : ℚ) = 0 := by
      rw [heq]; ring
    rw [hz]
    simp only [zero_mul, zero_div, sub_zero]
    exact pyTrunc_intCast maxf

lemma dfs_low (h1 : minc < maxc) (t : String) (h : maxc ≤ (t.length : ℤ)) :
    determine_font_size t minc maxc minf maxf = minf := by
  unfold determine_font_size
  by_cases hgt : (t.length : ℤ) > maxc
  · rw [if_neg (by omega), if_pos hgt]
  · have heq : (t.length : ℤ) = maxc := le_antisymm (not_lt.mp hgt) h
    rw [if_neg (by omega), if_neg hgt]
    have hL : ((maxc : ℚ) - (minc : ℚ)) ≠ 0 := by
      have : (minc : ℚ) < (maxc : ℚ) := by exact_mod_cast h1
      linarith
    have hz : ((t.length : ℤ) : ℚ) - (minc : ℚ) = (maxc : ℚ) - (minc : ℚ) := by
      rw [heq]
    rw [hz, mul_comm, mul_div_assoc, div_self hL, mul_one]
    have : (maxf : ℚ) - ((maxf : ℚ) - (minf : ℚ)) = ((minf : ℤ) : ℚ) := by
      ring
    rw [this, pyTrunc_intCast]

lemma dfs_mid (h1 : minc < maxc) (t : String) (hlo : minc ≤ (t.length : ℤ))
    (hhi : (t.length : ℤ) ≤ maxc) :
    determine_font_size t minc maxc minf maxf
      = pyTrunc ((maxf : ℚ)
          - (((t.length : ℤ) : ℚ) - (minc : ℚ)) * ((maxf : ℚ) - (minf : ℚ))
            / ((maxc : ℚ) - (minc : ℚ))) := by
  unfold determine_font_size
  rw [if_neg (by omega), if_neg (by omega)]

lemma dfs_le_max (h1 : minc < maxc) (h2 : minf ≤ maxf) (t : String) :
    determine_font_size t minc maxc minf maxf ≤ maxf := by
  by_cases hlt : (t.length : ℤ) < minc
  · rw [dfs_high h1 t hlt.le]
  · by_cases hgt : (t.length : ℤ) > maxc
    · rw [dfs_low h1 t hgt.le]; exact h2
    · rw [dfs_mid h1 t (not_lt.mp hlt) (not_lt.mp hgt)]
      exact (dfs_mid_bounds h1 h2 (not_lt.mp hlt) (not_lt.mp hgt)).2

lemma dfs_ge_min (h1 : minc < maxc) (h2 : minf ≤ maxf) (t : String) :
    minf ≤ determine_font_size t minc maxc minf maxf := by
  by_cases hlt : (t.length : ℤ) < minc
  · rw [dfs_high h1 t hlt.le]; exact h2
  · by_cases hgt : (t.length : ℤ) > maxc
    · rw [dfs_low h1 t hgt.le]
    · rw [dfs_mid h1 t (not_lt.mp hlt) (not_lt.mp hgt)]
      exact (dfs_mid_bounds h1 h2 (not_lt.mp hlt) (not_lt.mp hgt)).1

lemma dfs_antitone (h1 : minc < maxc) (h2 : minf ≤ maxf) (t1 t2 : String)
    (h : t1.length ≤ t2.length) :
    determine_font_size t2 minc maxc minf maxf ≤ determine_font_size t1 minc maxc minf maxf := by
  have hll : (t1.length : ℤ) ≤ (t2.length : ℤ) := by exact_mod_cast h
  by_cases c1 : (t1.length : ℤ) < minc
  · rw [dfs_high h1 t1 c1.le]
    exact dfs_le_max h1 h2 t2
  · by_cases c2 : (t1.length : ℤ) > maxc
    · rw [dfs_low h1 t1 c2.le, dfs_low h1 t2 (by omega)]
    · have hlo1 : minc ≤ (t1.length : ℤ) := not_lt.mp c1
      have hhi1 : (t1.length : ℤ) ≤ maxc := not_lt.mp c2
      rw [dfs_mid h1 t1 hlo1 hhi1]
      by_cases c3 : (t2.length : ℤ) > maxc
      · rw [dfs_low h1 t2 c3.le]
        exact (dfs_mid_bounds h1 h2 hlo1 hhi1).1
      · have hhi2 : (t2.length : ℤ) ≤ maxc := not_lt.mp c3
        rw [dfs_mid h1 t2 (by omega) hhi2]
        apply pyTrunc_mono
        have hL : (0 : ℚ) < (maxc : ℚ) - (minc : ℚ) := by
          linarith [(by exact_mod_cast h1 : (minc : ℚ) < (maxc : ℚ))]
        have hd0 : (0 : ℚ) ≤ (maxf : ℚ) - (minf : ℚ) := by
          linarith [(by exact_mod_cast h2 : (minf : ℚ) ≤ (maxf : ℚ))]
        have hq : ((t1.length : ℤ) : ℚ) ≤ ((t2.length : ℤ) : ℚ) := by exact_mod_cast hll
        have hmul : (((t1.length : ℤ) : ℚ) - (minc : ℚ)) * ((maxf : ℚ) - (minf : ℚ))
            ≤ (((t2.length : ℤ) : ℚ) - (minc : ℚ)) * ((maxf : ℚ) - (minf : ℚ)) := by
          nlinarith
        have hdiv : (((t1.length : ℤ) : ℚ) - (minc : ℚ)) * ((maxf : ℚ) - (minf : ℚ))
              / ((maxc : ℚ) - (minc : ℚ))
            ≤ (((t2.length : ℤ) : ℚ) - (minc : ℚ)) * ((maxf : ℚ) - (minf : ℚ))
              / ((maxc : ℚ) - (minc : ℚ)) := by
          exact (div_le_div_iff_of_pos_right hL).mpr hmul
        linarith

end FontSize

set_option maxRecDepth 4000 in
lemma text100_len : text100.length = 100 := by decide

set_option maxRecDepth 4000 in
lemma text150_len : text150.length = 150 := by decide

set_option maxRecDepth 4000 in
lemma text200_len : text200.length = 200 := by decide

lemma dfs_text100 : determine_font_size text100 100 200 30 40 = 40 := by
  apply dfs_high (by norm_num)
  rw [text100_len]; norm_num

lemma dfs_text200 : determine_font_size text200 100 200 30 40 = 30 := by
  apply dfs_low (by norm_num)
  rw [text200_len]; norm_num

lemma dfs_text150 : determine_font_size text150 100 200 30 40 = 35 := by
  have hl : ((text150.length : ℕ) : ℤ) = 150 := by rw [text150_len]; norm_num
  rw [dfs_mid (by norm_num) text150 (by rw [hl]; norm_num) (by rw [hl]; norm_num), hl]
  have hv : (40 : ℚ) - (((150 : ℤ) : ℚ) - ((100 : ℤ) : ℚ)) * (((40 : ℤ) : ℚ) - ((30 : ℤ) : ℚ))
      / (((200 : ℤ) : ℚ) - ((100 : ℤ) : ℚ)) = ((35 : ℤ) : ℚ) := by norm_num
  rw [show ((40 : ℤ) : ℚ) = (40 : ℚ) by norm_num] at hv ⊢
  rw [hv, pyTrunc_intCast]

/-- C4: `determine_font_size` returns `max_font_size` for texts of length at most
`min_char_size`, `min_font_size` for texts of length at least `max_char_size`, the
truncated linear interpolation in between, and is monotonically non-increasing in
text length; with the description parameters (100/200, 30/40) texts of 100, 150 and
200 characters give sizes 40, 35 and 30. -/
theorem C4_determine_font_size (minc maxc minf maxf : ℤ)
    (h1 : minc < maxc) (h2 : minf ≤ maxf) :
    (∀ t : String, (t.length : ℤ) ≤ minc → determine_font_size t minc maxc minf maxf = maxf)
  ∧ (∀ t : String, maxc ≤ (t.length : ℤ) → determine_font_size t minc maxc minf maxf = minf)
  ∧ (∀ t : String, minc ≤ (t.length : ℤ) → (t.length : ℤ) ≤ maxc →
      determine_font_size t minc maxc minf maxf
        = pyTrunc ((maxf : ℚ)
            - (((t.length : ℤ) : ℚ) - (minc : ℚ)) * ((maxf : ℚ) - (minf : ℚ))
              / ((maxc : ℚ) - (minc : ℚ))))
  ∧ (∀ t1 t2 : String, t1.length ≤ t2.length →
      determine_font_size t2 minc maxc minf maxf ≤ determine_font_size t1 minc maxc minf maxf)
  ∧ determine_font_size text100 100 200 30 40 = 40
  ∧ determine_font_size text150 100 200 30 40 = 35
  ∧ determine_font_size text200 100 200 30 40 = 30 :=
  ⟨fun t h => dfs_high h1 t h,
   fun t h => dfs_low h1 t h,
   fun t hlo hhi => dfs_mid h1 t hlo hhi,
   fun t1 t2 h => dfs_antitone h1 h2 t1 t2 h,
   dfs_text100, dfs_text150, dfs_text200⟩

/-- Witness for C4 at the description parameters. -/
theorem C4_witness :
    (100 : ℤ) < 200 ∧ (30 : ℤ) ≤ 40 ∧ determine_font_size text150 100 200 30 40 = 35 :=
  ⟨by norm_num, by norm_num,
   (C4_determine_font_size 100 200 30 40 (by norm_num) (by norm_num)).2.2.2.2.2.1⟩

/-- An RGBA pixel value, as the 4-tuples PIL hands to the per-pixel loops. -/
structure Pixel where
  r : ℕ
  g : ℕ
  b : ℕ
  a : ℕ
deriving DecidableEq

/-- Embedding of the per-pixel body of `recolor` (card_generator.py, lines 72-86):
gray is the integer average of the channels, `t = gray/255`, each output channel is
`int(black_target*(1-t) + white_target*t)`, and the source alpha is passed through. -/
def recolorPixel (black_target white_target : ℕ × ℕ × ℕ) (p : Pixel) : Pixel :=
  let gray_value : ℕ := (p.r + p.g + p.b) / 3
  let t : ℚ := (gray_value : ℚ) / 255
  { r := (pyTrunc ((black_target.1 : ℚ) * (1 - t) + (white_target.1 : ℚ) * t)).toNat
    g := (pyTrunc ((black_target.2.1 : ℚ) * (1 - t) + (white_target.2.1 : ℚ) * t)).toNat
    b := (pyTrunc ((black_target.2.2 : ℚ) * (1 - t) + (white_target.2.2 : ℚ) * t)).toNat
    a := p.a }

/-- Applying `recolor` to a whole image maps every pixel through `recolorPixel`. -/
def recolor (black_target white_target : ℕ × ℕ × ℕ) (img : ℤ → ℤ → Pixel) : ℤ → ℤ → Pixel :=
  fun x y => recolorPixel black_target white_target (img x y)

lemma pyTrunc_natCast_toNat (n : ℕ) : (pyTrunc ((n : ℕ) : ℚ)).toNat = n := by
  rw [pyTrunc_natCast]
  exact Int.toNat_natCast n

/-- C6: `recolor` preserves the source alpha exactly, computes each colour channel
as the truncated linear interpolation keyed on average-of-channels gray
`t = ((r+g+b) div 3)/255`, and maps a pure-black pixel to `black_target` and a
pure-white pixel to `white_target` exactly (hence within plus or minus one per channel). -/
theorem C6_recolor_pixel (bt wt : ℕ × ℕ × ℕ) (r g b a : ℕ) :
    (recolorPixel bt wt ⟨r, g, b, a⟩).a = a
  ∧ (recolorPixel bt wt ⟨r, g, b, a⟩).r
      = (pyTrunc ((bt.1 : ℚ) * (1 - (((r + g + b) / 3 : ℕ) : ℚ) / 255)
          + (wt.1 : ℚ) * ((((r + g + b) / 3 : ℕ) : ℚ) / 255))).toNat
  ∧ (recolorPixel bt wt ⟨r, g, b, a⟩).g
      = (pyTrunc ((bt.2.1 : ℚ) * (1 - (((r + g + b) / 3 : ℕ) : ℚ) / 255)
          + (wt.2.1 : ℚ) * ((((r + g + b) / 3 : ℕ) : ℚ) / 255))).toNat
  ∧ (recolorPixel bt wt ⟨r, g, b, a⟩).b
      = (pyTrunc ((bt.2.2 : ℚ) * (1 - (((r + g + b) / 3 : ℕ) : ℚ) / 255)
          + (wt.2.2 : ℚ) * ((((r + g + b) / 3 : ℕ) : ℚ) / 255))).toNat
  ∧ recolorPixel bt wt ⟨0, 0, 0, a⟩ = ⟨bt.1, bt.2.1, bt.2.2, a⟩
  ∧ recolorPixel bt wt ⟨255, 255, 255, a⟩ = ⟨wt.1, wt.2.1, wt.2.2, a⟩ := by
  refine ⟨rfl, rfl, rfl, rfl, ?_, ?_⟩
  · show recolorPixel bt wt ⟨0, 0, 0, a⟩ = _
    unfold recolorPixel
    have hg : (((0 + 0 + 0) / 3 : ℕ) : ℚ) / 255 = 0 := by norm_num
    simp only [Pixel.mk.injEq, hg]
    norm_num
    exact ⟨pyTrunc_natCast_toNat bt.1, pyTrunc_natCast_toNat bt.2.1, pyTrunc_natCast_toNat bt.2.2⟩
  · show recolorPixel bt wt ⟨255, 255, 255, a⟩ = _
    unfold recolorPixel
    have hg : (((255 + 255 + 255) / 3 : ℕ) : ℚ) / 255 = 1 := by norm_num
    simp only [Pixel.mk.injEq, hg]
    norm_num
    exact ⟨pyTrunc_natCast_toNat wt.1, pyTrunc_natCast_toNat wt.2.1, pyTrunc_natCast_toNat wt.2.2⟩

/-- A single `draw.text` call: position, text and fill colour. -/
structure DrawOp where
  x : ℤ
  y : ℤ
  text : String
  fill : ℕ × ℕ × ℕ
deriving DecidableEq

/-- Embedding of Python `" ".join(words)`. -/
def joinWords : List String → String
  | [] => ""
  | [wd] => wd
  | wd :: wd2 :: rest => wd ++ " " ++ joinWords (wd2 :: rest)

/-- Embedding of Python `text.split()`: split on whitespace runs, dropping
empty pieces. -/
def splitWordsAux : List Char → List Char → List String
  | [], acc => if acc = [] then [] else [String.mk acc.reverse]
  | c :: cs, acc =>
    if c.isWhitespace then
      if acc = [] then splitWordsAux cs []
      else String.mk acc.reverse :: splitWordsAux cs []
    else splitWordsAux cs (c :: acc)

/-- Embedding of `text.split()` on a string. -/
def pySplit (text : String) : List String := splitWordsAux text.toList []

/-- Embedding of the line-building loop of `_draw_justified_text`
(card_generator.py, lines 225-244). `w` measures rendered text width
(`draw.textbbox`); a word is appended while the joined test line still fits,
otherwise the current line is closed and the word opens a new line. -/
def wrapLoop (w : String → ℕ) (max_width : ℕ) :
    List String → List (List String) → List String → List (List String)
  | [], lines, current_line =>
    if current_line = [] then lines else lines ++ [current_line]
  | word :: rest, lines, current_line =>
    let test_line := current_line ++ [word]
    if w (joinWords test_line) ≤ max_width then
      wrapLoop w max_width rest lines test_line
    else if current_line = [] then
      wrapLoop w max_width rest lines [word]
    else
      wrapLoop w max_width rest (lines ++ [current_line]) [word]

/-- The wrapped lines of a word list. -/
def wrapLines (w : String → ℕ) (max_width : ℕ) (words : List String) : List (List String) :=
  wrapLoop w max_width words [] []

/-- Embedding of the per-word drawing loop of a justified line (lines 266-274):
each word advances the pen by its own width, the space width, and the per-gap
slack. -/
def drawWordsLoop (w : String → ℕ) (spg : ℤ) : ℤ → ℤ → List String → List DrawOp
  | _, _, [] => []
  | cx, cy, word :: rest =>
    ⟨cx, cy, word, (0, 0, 0)⟩ ::
      drawWordsLoop w spg (cx + (w word : ℤ) + (w " " : ℤ) + spg) cy rest

/-- Embedding of the per-line drawing step of `_draw_justified_text`
(lines 250-276): the last line of the paragraph and single-word lines are drawn
left-aligned as one call; other lines distribute `max_width - line_width` over
the gaps with Python floor division, dropping the remainder. -/
def drawLineOps (w : String → ℕ) (max_width : ℕ) (x cy : ℤ) (is_last_line : Bool)
    (line_words : List String) : List DrawOp :=
  if is_last_line = true ∨ line_words.length = 1 then
    [⟨x, cy, joinWords line_words, (0, 0, 0)⟩]
  else
    let line_width := w (joinWords line_words)
    let extra_space : ℤ := (max_width : ℤ) - (line_width : ℤ)
    let space_per_gap : ℤ :=
      if 1 < line_words.length then Int.fdiv extra_space ((line_words.length : ℤ) - 1) else 0
    drawWordsLoop w space_per_gap x cy line_words

/-- Embedding of `_draw_justified_text` (lines 223-276): wrap, then draw each
line at pitch `font.size + 5`, the last line flagged. -/
def draw_justified_text (w : String → ℕ) (text : String) (x y : ℤ)
    (max_width font_size : ℕ) : List DrawOp :=
  let lines := wrapLines w max_width (pySplit text)
  let line_height : ℤ := (font_size : ℤ) + 5
  ((List.range lines.length).map fun (i : ℕ) =>
    drawLineOps w max_width x (y + (i : ℤ) * line_height)
      (decide (i = lines.length - 1)) (lines.getD i [])).flatten

/-- The wrapped lines of the description paragraph, as the routine builds them. -/
def linesOf (w : String → ℕ) (max_width : ℕ) (text : String) : List (List String) :=
  wrapLines w max_width (pySplit text)

/-- The rendered width of a drawn line: from the left edge of its first draw
call to the right edge (pen position plus measured width) of its last. -/
def opsSpan (w : String → ℕ) : List DrawOp → ℤ
  | [] => 0
  | o :: rest => (rest.getLastD o).x + ((w (rest.getLastD o).text : ℕ) : ℤ) - o.x

lemma opsSpan_cons_cons (w : String → ℕ) (o o2 : DrawOp) (ops : List DrawOp) :
    opsSpan w (o :: o2 :: ops) = opsSpan w (o2 :: ops) + (o2.x - o.x) := by
  simp only [opsSpan, List.getLastD_cons]
  ring

lemma span_drawWordsLoop (w : String → ℕ) (spg : ℤ) :
    ∀ (line : List String), line ≠ [] → ∀ (cx cy : ℤ),
    opsSpan w (drawWordsLoop w spg cx cy line)
      = ((line.map w).sum : ℤ) + ((line.length : ℤ) - 1) * ((w " " : ℤ) + spg)
  | [], h, _, _ => absurd rfl h
  | [a], _, cx, cy => by
    simp only [drawWordsLoop, opsSpan, List.getLastD_nil, List.map_cons, List.map_nil,
      List.sum_cons, List.sum_nil, List.length_cons, List.length_nil]
    push_cast
    ring
  | a :: b :: rest, _, cx, cy => by
    have ih := span_drawWordsLoop w spg (b :: rest) (by simp)
      (cx + (w a : ℤ) + (w " " : ℤ) + spg) cy
    have hexp2 : drawWordsLoop w spg (cx + (w a : ℤ) + (w " " : ℤ) + spg) cy (b :: rest)
        = ⟨cx + (w a : ℤ) + (w " " : ℤ) + spg, cy, b, (0, 0, 0)⟩ ::
            drawWordsLoop w spg
              (cx + (w a : ℤ) + (w " " : ℤ) + spg + (w b : ℤ) + (w " " : ℤ) + spg) cy rest := rfl
    have hexp : drawWordsLoop w spg cx cy (a :: b :: rest)
        = ⟨cx, cy, a, (0, 0, 0)⟩ ::
            drawWordsLoop w spg (cx + (w a : ℤ) + (w " " : ℤ) + spg) cy (b :: rest) := rfl
    rw [hexp, hexp2, opsSpan_cons_cons, ← hexp2, ih]
    simp only [List.map_cons, List.sum_cons, List.length_cons]
    push_cast
    ring

lemma drawLineOps_left (w : String → ℕ) (max_width : ℕ) (x cy : ℤ) (fl : Bool)
    (line : List String) (h : fl = true ∨ line.length = 1) :
    drawLineOps w max_width x cy fl line = [⟨x, cy, joinWords line, (0, 0, 0)⟩] := by
  unfold drawLineOps
  rw [if_pos h]

lemma span_drawLineOps (w : String → ℕ) (max_width : ℕ) (x cy : ℤ) (line : List String)
    (hlen : 2 ≤ line.length)
    (hadd : w (joinWords line) = (line.map w).sum + (line.length - 1) * w " ") :
    opsSpan w (drawLineOps w max_width x cy false line)
      = (max_width : ℤ)
        - ((max_width : ℤ) - (w (joinWords line) : ℤ)) % ((line.length : ℤ) - 1) := by
  have hne : line ≠ [] := by
    intro hc
    rw [hc] at hlen
    simp at hlen
  have hcond : ¬ ((false : Bool) = true ∨ line.length = 1) := by
    push_neg
    exact ⟨by simp, by omega⟩
  have hstep : drawLineOps w max_width x cy false line
      = drawWordsLoop w
          (if 1 < line.length then
            Int.fdiv ((max_width : ℤ) - (w (joinWords line) : ℤ)) ((line.length : ℤ) - 1)
          else 0) x cy line := by
    unfold drawLineOps
    rw [if_neg hcond]
  rw [hstep, if_pos (by omega : 1 < line.length)]
  rw [span_drawWordsLoop w _ line hne x cy]
  have hb : (0 : ℤ) ≤ (line.length : ℤ) - 1 := by
    have : (2 : ℤ) ≤ (line.length : ℤ) := by exact_mod_cast hlen
    omega
  rw [Int.fdiv_eq_ediv _ hb]
  have hmod := Int.ediv_add_emod ((max_width : ℤ) - (w (joinWords line) : ℤ))
    ((line.length : ℤ) - 1)
  have hlw : (w (joinWords line) : ℤ)
      = ((line.map w).sum : ℤ) + ((line.length : ℤ) - 1) * (w " " : ℤ) := by
    rw [hadd]
    push_cast [Nat.cast_sub (by omega : 1 ≤ line.length)]
    ring
  have hexpand : ((line.map w).sum : ℤ)
      + ((line.length : ℤ) - 1)
        * ((w " " : ℤ) + ((max_width : ℤ) - (w (joinWords line) : ℤ)) / ((line.length : ℤ) - 1))
      = (w (joinWords line) : ℤ)
        + ((line.length : ℤ) - 1)
          * (((max_width : ℤ) - (w (joinWords line) : ℤ)) / ((line.length : ℤ) - 1)) := by
    rw [hlw]
    ring
  rw [hexpand]
  linarith [hmod]

lemma length_joinWords : ∀ ws : List String, ws ≠ [] →
    String.length (joinWords ws)
      = (ws.map String.length).sum + (ws.length - 1) * String.length " "
  | [], h => absurd rfl h
  | [a], _ => by
    simp [joinWords]
  | a :: b :: rest, _ => by
    have ih := length_joinWords (b :: rest) (by simp)
    have h1 : joinWords (a :: b :: rest) = a ++ " " ++ joinWords (b :: rest) := rfl
    rw [h1, String.length_append, String.length_append, ih]
    simp only [List.map_cons, List.sum_cons, List.length_cons]
    have hsp : String.length " " = 1 := rfl
    rw [hsp]
    omega

/-- C3: for every wrapped line of the justified-text routine that has at least
two words and is not the last line of the paragraph, the rendered width equals
`max_width` minus the dropped integer-division remainder, which lies between 0
and `word_count - 2`; the last line and single-word lines are drawn as a single
left-aligned call at their natural (unstretched) width.  The width measure `w`
is assumed additive over words joined by single spaces, which is how the code
measures joined lines. -/
theorem C3_justified_line_width (w : String → ℕ) (max_width : ℕ) (text : String)
    (hadd : ∀ ws : List String, ws ≠ [] →
      w (joinWords ws) = (ws.map w).sum + (ws.length - 1) * w " ") :
    (∀ i : ℕ, ∀ x y : ℤ, i < (linesOf w max_width text).length →
       i ≠ (linesOf w max_width text).length - 1 →
       2 ≤ ((linesOf w max_width text).getD i []).length →
       (opsSpan w (drawLineOps w max_width x y
            (decide (i = (linesOf w max_width text).length - 1))
            ((linesOf w max_width text).getD i []))
          = (max_width : ℤ)
            - ((max_width : ℤ)
                - (w (joinWords ((linesOf w max_width text).getD i [])) : ℤ))
              % ((((linesOf w max_width text).getD i []).length : ℤ) - 1)
        ∧ 0 ≤ ((max_width : ℤ)
                - (w (joinWords ((linesOf w max_width text).getD i [])) : ℤ))
              % ((((linesOf w max_width text).getD i []).length : ℤ) - 1)
        ∧ ((max_width : ℤ)
                - (w (joinWords ((linesOf w max_width text).getD i [])) : ℤ))
              % ((((linesOf w max_width text).getD i []).length : ℤ) - 1)
            ≤ (((linesOf w max_width text).getD i []).length : ℤ) - 2))
  ∧ (∀ i : ℕ, ∀ x y : ℤ,
       (i = (linesOf w max_width text).length - 1
         ∨ ((linesOf w max_width text).getD i []).length = 1) →
       drawLineOps w max_width x y
          (decide (i = (linesOf w max_width text).length - 1))
          ((linesOf w max_width text).getD i [])
        = [⟨x, y, joinWords ((linesOf w max_width text).getD i []), (0, 0, 0)⟩]) := by
  constructor
  · intro i x y hi hne hlen
    have hflag : decide (i = (linesOf w max_width text).length - 1) = false :=
      decide_eq_false hne
    rw [hflag]
    have hlinene : (linesOf w max_width text).getD i [] ≠ [] := by
      intro hc
      rw [hc] at hlen
      simp at hlen
    have hline_add := hadd ((linesOf w max_width text).getD i []) hlinene
    have h2 : (2 : ℤ) ≤ (((linesOf w max_width text).getD i []).length : ℤ) := by
      exact_mod_cast hlen
    refine ⟨span_drawLineOps w max_width x y _ hlen hline_add, ?_, ?_⟩
    · exact Int.emod_nonneg _ (by omega)
    · have := Int.emod_lt_of_pos
        ((max_width : ℤ) - (w (joinWords ((linesOf w max_width text).getD i [])) : ℤ))
        (by omega : (0 : ℤ) < (((linesOf w max_width text).getD i []).length : ℤ) - 1)
      omega
  · intro i x y h
    rcases h with h | h
    · exact drawLineOps_left w max_width x y _ _ (Or.inl (decide_eq_true h))
    · exact drawLineOps_left w max_width x y _ _ (Or.inr h)

/-- Witness for C3: with the character-count width measure and width 7, the text
"aa bb cc" wraps into two lines; the first, two-word, non-last line renders at
exactly the target width minus the dropped remainder. -/
theorem C3_witness :
    (∀ ws : List String, ws ≠ [] →
      String.length (joinWords ws)
        = (ws.map String.length).sum + (ws.length - 1) * String.length " ")
  ∧ opsSpan String.length (drawLineOps String.length 7 0 0
        (decide (0 = (linesOf String.length 7 "aa bb cc").length - 1))
        ((linesOf String.length 7 "aa bb cc").getD 0 []))
      = (7 : ℤ)
        - ((7 : ℤ)
            - (String.length (joinWords ((linesOf String.length 7 "aa bb cc").getD 0 [])) : ℤ))
          % ((((linesOf String.length 7 "aa bb cc").getD 0 []).length : ℤ) - 1) :=
  ⟨length_joinWords,
   ((C3_justified_line_width String.length 7 "aa bb cc" length_joinWords).1 0 0 0
      (by decide) (by decide) (by decide)).1⟩

/-- C8: an empty description splits into zero words, wraps into zero lines, and
the justification routine performs zero draw calls; the routine is total, so
the description step of such a build completes without error. -/
theorem C8_empty_description (w : String → ℕ) (x y : ℤ) (max_width font_size : ℕ) :
    draw_justified_text w "" x y max_width font_size = []
    ∧ pySplit "" = []
    ∧ wrapLines w max_width [] = [] :=
  ⟨rfl, rfl, rfl⟩

/-- Modelled from the spec: PIL `Image.paste(src, (ox, oy), src)` with the
source itself as alpha mask — the compositing call `create_card` uses for the
bottom texture, scroll, flag, rotated suit label and glyph layers, and the
chess-pattern logo tiles — an alpha-masked overwrite in which a source pixel
replaces the destination pixel only where the source alpha is positive;
destination pixels elsewhere are left unchanged.  The character image is NOT
pasted this way: see `pasteUnmasked`. -/
def pasteLayer (dest src : ℤ → ℤ → Pixel) (src_w src_h : ℕ) (ox oy : ℤ) : ℤ → ℤ → Pixel :=
  fun x y =>
    if ox ≤ x ∧ x < ox + src_w ∧ oy ≤ y ∧ y < oy + src_h
        ∧ 0 < (src (x - ox) (y - oy)).a then
      src (x - ox) (y - oy)
    else dest x y

/-- Modelled from the spec: PIL `Image.paste(src, (ox, oy))` without a mask —
the call `create_card` uses for the character image (card_generator.py, lines
297 and 314): inside the source rectangle every destination pixel is replaced
by the source pixel, regardless of the source alpha. -/
def pasteUnmasked (dest src : ℤ → ℤ → Pixel) (src_w src_h : ℕ) (ox oy : ℤ) : ℤ → ℤ → Pixel :=
  fun x y =>
    if ox ≤ x ∧ x < ox + src_w ∧ oy ≤ y ∧ y < oy + src_h then
      src (x - ox) (y - oy)
    else dest x y

/-- C5 counterexample: the claim fails for the character-image layer, which
`create_card` pastes without a mask (card_generator.py, lines 297 and 314).
Pasting a constant fully transparent 5 by 5 source unmasked onto a constant
destination replaces the destination pixel at (2, 2) even though the source
alpha there is 0 — the destination is not left unchanged. -/
theorem C5_counterexample :
    ((fun (_ _ : ℤ) => Pixel.mk 9 9 9 0) 2 2).a = 0
  ∧ pasteUnmasked (fun _ _ => Pixel.mk 1 2 3 4) (fun _ _ => Pixel.mk 9 9 9 0) 5 5 0 0 2 2
      = Pixel.mk 9 9 9 0
  ∧ pasteUnmasked (fun _ _ => Pixel.mk 1 2 3 4) (fun _ _ => Pixel.mk 9 9 9 0) 5 5 0 0 2 2
      ≠ Pixel.mk 1 2 3 4 :=
  ⟨rfl, by decide, by decide⟩

/-- C5 (amended): the layers `create_card` pastes with the source as mask
(bottom texture, scroll, flag, rotated suit label, glyph) are alpha-masked
overwrites — wherever the source alpha is zero the destination pixel is
unchanged, and a fully transparent source leaves every destination pixel
unchanged; the character image, however, is pasted without a mask, and inside
its rectangle the source pixel replaces the destination pixel regardless of
the source alpha. -/
theorem C5_masked_vs_unmasked_paste (dest src : ℤ → ℤ → Pixel) (src_w src_h : ℕ) (ox oy : ℤ) :
    (∀ x y : ℤ, (src (x - ox) (y - oy)).a = 0 →
        pasteLayer dest src src_w src_h ox oy x y = dest x y)
  ∧ ((∀ i j : ℤ, (src i j).a = 0) →
        ∀ x y : ℤ, pasteLayer dest src src_w src_h ox oy x y = dest x y)
  ∧ (∀ x y : ℤ, ox ≤ x → x < ox + src_w → oy ≤ y → y < oy + src_h →
        pasteUnmasked dest src src_w src_h ox oy x y = src (x - ox) (y - oy)) := by
  have hpart : ∀ x y : ℤ, (src (x - ox) (y - oy)).a = 0 →
      pasteLayer dest src src_w src_h ox oy x y = dest x y := by
    intro x y h
    unfold pasteLayer
    rw [if_neg]
    intro hc
    have hlt := hc.2.2.2.2
    rw [h] at hlt
    exact absurd hlt (lt_irrefl 0)
  refine ⟨hpart, fun hall x y => hpart x y (hall _ _), ?_⟩
  intro x y h1 h2 h3 h4
  unfold pasteUnmasked
  rw [if_pos ⟨h1, h2, h3, h4⟩]

/-- Witness for C5 (amended): a constant fully transparent 5 by 5 layer leaves
a constant destination pixel unchanged under the masked paste, while the
unmasked paste writes the source pixel at an in-rectangle point. -/
theorem C5_witness :
    (∀ i j : ℤ, ((fun (_ _ : ℤ) => Pixel.mk 9 9 9 0) i j).a = 0)
  ∧ pasteLayer (fun _ _ => Pixel.mk 1 2 3 4) (fun _ _ => Pixel.mk 9 9 9 0) 5 5 0 0 2 2
      = Pixel.mk 1 2 3 4
  ∧ pasteUnmasked (fun _ _ => Pixel.mk 1 2 3 4) (fun _ _ => Pixel.mk 9 9 9 0) 5 5 0 0 2 2
      = (fun (_ _ : ℤ) => Pixel.mk 9 9 9 0) (2 - 0) (2 - 0) :=
  ⟨fun _ _ => rfl,
   (C5_masked_vs_unmasked_paste (fun _ _ => Pixel.mk 1 2 3 4) (fun _ _ => Pixel.mk 9 9 9 0)
      5 5 0 0).2.1 (fun _ _ => rfl) 2 2,
   (C5_masked_vs_unmasked_paste (fun _ _ => Pixel.mk 1 2 3 4) (fun _ _ => Pixel.mk 9 9 9 0)
      5 5 0 0).2.2 2 2 (by decide) (by decide) (by decide) (by decide)⟩

/-- The row-major list of `(row, col)` grid cells the chess-pattern loops visit. -/
def chessCells (rows cols : ℕ) : List (ℕ × ℕ) :=
  ((List.range rows).map fun row => (List.range cols).map fun col => (row, col)).flatten

/-- The guard of the chess-pattern paste: checkerboard parity and the
pattern-area bound checks of `create_chess_pattern_texture`. -/
abbrev cellVisible (spacing pattern_width pattern_height : ℕ) (rc : ℕ × ℕ) : Prop :=
  (rc.1 + rc.2) % 2 = 0 ∧ rc.2 * spacing < pattern_width ∧ rc.1 * spacing < pattern_height

/-- Point `(x, y)` lies inside the pasted logo tile of cell `rc` at a source
pixel with positive alpha (the condition under which that paste writes it). -/
abbrev cellCovers (logo : ℤ → ℤ → Pixel) (logo_size spacing : ℕ) (rc : ℕ × ℕ)
    (x y : ℤ) : Prop :=
  ((rc.2 * spacing : ℕ) : ℤ) ≤ x ∧ x < ((rc.2 * spacing : ℕ) : ℤ) + logo_size
  ∧ ((rc.1 * spacing : ℕ) : ℤ) ≤ y ∧ y < ((rc.1 * spacing : ℕ) : ℤ) + logo_size
  ∧ 0 < (logo (x - ((rc.2 * spacing : ℕ) : ℤ)) (y - ((rc.1 * spacing : ℕ) : ℤ))).a

/-- One iteration of the chess-pattern loops (card_generator.py, lines 209-219):
paste the logo at `(col*spacing, row*spacing)` when the checkerboard and bound
checks pass. -/
def chessStep (logo : ℤ → ℤ → Pixel) (logo_size spacing pattern_width pattern_height : ℕ)
    (img : ℤ → ℤ → Pixel) (rc : ℕ × ℕ) : ℤ → ℤ → Pixel :=
  if cellVisible spacing pattern_width pattern_height rc then
    pasteLayer img logo logo_size logo_size ((rc.2 * spacing : ℕ) : ℤ) ((rc.1 * spacing : ℕ) : ℤ)
  else img

/-- Embedding of `create_chess_pattern_texture` (card_generator.py, lines
185-221).  `logo` stands for the loaded, resized and colour-mapped logo bitmap;
the pattern starts as an opaque secondary-colour fill and the loops paste the
logo over it in checkerboard cells with stride `logo_size + 20`. -/
def create_chess_pattern_texture (secondary : ℕ × ℕ × ℕ) (pattern_size : ℕ × ℕ)
    (logo : ℤ → ℤ → Pixel) (logo_size : ℕ) : ℤ → ℤ → Pixel :=
  let pattern_width := pattern_size.1
  let pattern_height := pattern_size.2
  let logo_spacing := logo_size + 20
  let cols := pattern_width / logo_spacing + 2
  let rows := pattern_height / logo_spacing + 2
  let base : ℤ → ℤ → Pixel := fun _ _ => ⟨secondary.1, secondary.2.1, secondary.2.2, 255⟩
  (chessCells rows cols).foldl
    (chessStep logo logo_size logo_spacing pattern_width pattern_height) base

lemma chessFold_eq (logo : ℤ → ℤ → Pixel) (logo_size spacing pw ph : ℕ) :
    ∀ (L : List (ℕ × ℕ)) (img : ℤ → ℤ → Pixel) (x y : ℤ),
      (L.foldl (chessStep logo logo_size spacing pw ph) img) x y = img x y
      ∨ ∃ rc ∈ L, cellVisible spacing pw ph rc ∧ cellCovers logo logo_size spacing rc x y
          ∧ (L.foldl (chessStep logo logo_size spacing pw ph) img) x y
              = logo (x - ((rc.2 * spacing : ℕ) : ℤ)) (y - ((rc.1 * spacing : ℕ) : ℤ))
  | [], img, x, y => Or.inl rfl
  | c :: L, img, x, y => by
    rcases chessFold_eq logo logo_size spacing pw ph L
        (chessStep logo logo_size spacing pw ph img c) x y with h | ⟨rc, hrc, hv, hc, he⟩
    · rw [List.foldl_cons]
      by_cases hvis : cellVisible spacing pw ph c
      · by_cases hcov : cellCovers logo logo_size spacing c x y
        · right
          refine ⟨c, List.mem_cons_self c L, hvis, hcov, ?_⟩
          rw [h]
          unfold chessStep
          rw [if_pos hvis]
          unfold pasteLayer
          rw [if_pos hcov]
        · left
          rw [h]
          unfold chessStep
          rw [if_pos hvis]
          unfold pasteLayer
          rw [if_neg hcov]
      · left
        rw [h]
        unfold chessStep
        rw [if_neg hvis]
    · right
      exact ⟨rc, List.mem_cons_of_mem c hrc, hv, hc, by rw [List.foldl_cons]; exact he⟩

/-- C7: in the chess-pattern texture the logo is pasted only at checkerboard
cells `(row, col)` with `(row + col) % 2 = 0`, at positions that are the
multiples `(col*(logo_size+20), row*(logo_size+20))` of the tile stride; any
point not written by such a paste (for every visible checkerboard cell, the
point is outside its tile or at a zero-alpha logo pixel) keeps the opaque
secondary background colour. -/
theorem C7_chess_pattern (secondary : ℕ × ℕ × ℕ) (pattern_size : ℕ × ℕ)
    (logo : ℤ → ℤ → Pixel) (logo_size : ℕ) (x y : ℤ) :
    (create_chess_pattern_texture secondary pattern_size logo logo_size x y
        = ⟨secondary.1, secondary.2.1, secondary.2.2, 255⟩
      ∨ ∃ rc ∈ chessCells (pattern_size.2 / (logo_size + 20) + 2)
            (pattern_size.1 / (logo_size + 20) + 2),
          cellVisible (logo_size + 20) pattern_size.1 pattern_size.2 rc
          ∧ cellCovers logo logo_size (logo_size + 20) rc x y
          ∧ create_chess_pattern_texture secondary pattern_size logo logo_size x y
              = logo (x - ((rc.2 * (logo_size + 20) : ℕ) : ℤ))
                  (y - ((rc.1 * (logo_size + 20) : ℕ) : ℤ)))
  ∧ ((∀ rc ∈ chessCells (pattern_size.2 / (logo_size + 20) + 2)
          (pattern_size.1 / (logo_size + 20) + 2),
        cellVisible (logo_size + 20) pattern_size.1 pattern_size.2 rc →
        ¬ cellCovers logo logo_size (logo_size + 20) rc x y) →
      create_chess_pattern_texture secondary pattern_size logo logo_size x y
        = ⟨secondary.1, secondary.2.1, secondary.2.2, 255⟩) := by
  have hfold := chessFold_eq logo logo_size (logo_size + 20) pattern_size.1 pattern_size.2
    (chessCells (pattern_size.2 / (logo_size + 20) + 2) (pattern_size.1 / (logo_size + 20) + 2))
    (fun _ _ => ⟨secondary.1, secondary.2.1, secondary.2.2, 255⟩) x y
  constructor
  · exact hfold
  · intro hnone
    rcases hfold with h | ⟨rc, hrc, hv, hc, _⟩
    · exact h
    · exact absurd hc (hnone rc hrc hv)

/-- Witness for C7: with a 5 by 5 pattern, tile size 1 (stride 21) and an
opaque constant logo, the point (3, 3) is covered by no visible checkerboard
cell and keeps the opaque secondary background colour. -/
theorem C7_witness :
    (∀ rc ∈ chessCells (5 / (1 + 20) + 2) (5 / (1 + 20) + 2),
      cellVisible (1 + 20) 5 5 rc →
      ¬ cellCovers (fun _ _ => Pixel.mk 7 7 7 255) 1 (1 + 20) rc 3 3)
  ∧ create_chess_pattern_texture (10, 20, 30) (5, 5) (fun _ _ => Pixel.mk 7 7 7 255) 1 3 3
      = ⟨10, 20, 30, 255⟩ :=
  ⟨by decide,
   (C7_chess_pattern (10, 20, 30) (5, 5) (fun _ _ => Pixel.mk 7 7 7 255) 1 3 3).2 (by decide)⟩

/-- Modelled from the spec: the raster of `ImageDraw.rounded_rectangle` used by
`create_rounded_mask` — a point is inside the rounded rectangle over
`[0, w-1] x [0, h-1]` with corner radius `radius` when it is in the bounding
box and either in one of the two central bands or within one of the four
quarter-circle corners. -/
def insideRoundedRect (w h radius : ℕ) (x y : ℤ) : Bool :=
  let x1 : ℤ := (w : ℤ) - 1
  let y1 : ℤ := (h : ℤ) - 1
  let r : ℤ := radius
  decide (0 ≤ x ∧ x ≤ x1 ∧ 0 ≤ y ∧ y ≤ y1)
    && (decide (r ≤ x ∧ x ≤ x1 - r)
      || decide (r ≤ y ∧ y ≤ y1 - r)
      || decide ((x - r) ^ 2 + (y - r) ^ 2 ≤ r ^ 2)
      || decide ((x - (x1 - r)) ^ 2 + (y - r) ^ 2 ≤ r ^ 2)
      || decide ((x - r) ^ 2 + (y - (y1 - r)) ^ 2 ≤ r ^ 2)
      || decide ((x - (x1 - r)) ^ 2 + (y - (y1 - r)) ^ 2 ≤ r ^ 2))

/-- Embedding of `create_rounded_mask` (card_generator.py, lines 127-140): a
single-channel buffer that is 255 inside the rounded rectangle and 0 outside. -/
def create_rounded_mask (w h radius : ℕ) : ℤ → ℤ → ℕ :=
  fun x y => if insideRoundedRect w h radius x y then 255 else 0

/-- Modelled from the spec: PIL `Image.putalpha(mask)` — the image's alpha
channel is replaced, pixel for pixel, by the mask; colour channels are kept. -/
def putalpha (img : ℤ → ℤ → Pixel) (mask : ℤ → ℤ → ℕ) : ℤ → ℤ → Pixel :=
  fun x y => ⟨(img x y).r, (img x y).g, (img x y).b, mask x y⟩

/-- Embedding of the final step of `create_card` (card_generator.py, lines
448-452): the fully composited card gets its alpha channel replaced by the
750 x 1050 rounded mask with corner radius 30. -/
def finalizeCard (card : ℤ → ℤ → Pixel) : ℤ → ℤ → Pixel :=
  putalpha card (create_rounded_mask 750 1050 30)

/-- C10: the alpha channel of the card returned by `create_card` equals the
rounded-corner mask exactly — it does not depend on the accumulated alpha of
the composited layers, is 255 at every point inside the rounded rectangle
(even where all layers were transparent) and 0 outside it. -/
theorem C10_final_alpha_is_mask (card card2 : ℤ → ℤ → Pixel) (x y : ℤ) :
    (finalizeCard card x y).a = create_rounded_mask 750 1050 30 x y
  ∧ (finalizeCard card x y).a = (finalizeCard card2 x y).a
  ∧ (insideRoundedRect 750 1050 30 x y = true → (finalizeCard card x y).a = 255)
  ∧ (insideRoundedRect 750 1050 30 x y = false → (finalizeCard card x y).a = 0) := by
  refine ⟨rfl, rfl, ?_, ?_⟩
  · intro h
    show create_rounded_mask 750 1050 30 x y = 255
    unfold create_rounded_mask
    rw [h]
    rfl
  · intro h
    show create_rounded_mask 750 1050 30 x y = 0
    unfold create_rounded_mask
    rw [h]
    rfl

/-- Witness for C10: for a fully transparent composited card, the point
(100, 100) is inside the rounded rectangle and gets alpha 255, while (0, 0) is
outside (cut by the corner circle) and gets alpha 0. -/
theorem C10_witness :
    insideRoundedRect 750 1050 30 100 100 = true
  ∧ insideRoundedRect 750 1050 30 0 0 = false
  ∧ (finalizeCard (fun _ _ => Pixel.mk 0 0 0 0) 100 100).a = 255
  ∧ (finalizeCard (fun _ _ => Pixel.mk 0 0 0 0) 0 0).a = 0 :=
  ⟨by decide, by decide,
   (C10_final_alpha_is_mask (fun _ _ => Pixel.mk 0 0 0 0) (fun _ _ => Pixel.mk 0 0 0 0)
      100 100).2.2.1 (by decide),
   (C10_final_alpha_is_mask (fun _ _ => Pixel.mk 0 0 0 0) (fun _ _ => Pixel.mk 0 0 0 0)
      0 0).2.2.2 (by decide)⟩

/-- Embedding of `color_hex_to_tuple` (card_generator.py, lines 10-12): parse
a `#rrggbb` string into an RGB triple. -/
def hexDigitVal (c : Char) : ℕ :=
  if '0' ≤ c ∧ c ≤ '9' then c.toNat - '0'.toNat
  else if 'a' ≤ c ∧ c ≤ 'f' then c.toNat - 'a'.toNat + 10
  else if 'A' ≤ c ∧ c ≤ 'F' then c.toNat - 'A'.toNat + 10
  else 0

/-- The two-hex-digit byte of `hex_color[i : i + 2]`. -/
def hexByte (s : String) (i : ℕ) : ℕ :=
  16 * hexDigitVal (s.toList.getD i '0') + hexDigitVal (s.toList.getD (i + 1) '0')

/-- Parse a `#rrggbb` colour string, as `color_hex_to_tuple` does for the
indices 1, 3, 5. -/
def color_hex_to_tuple (s : String) : ℕ × ℕ × ℕ := (hexByte s 1, hexByte s 3, hexByte s 5)

/-- Embedding of the numeric-badge text rendering of `create_card`
(card_generator.py, lines 394-435): the decimal string of `force` is drawn at
the 8 offsets `(dx, dy)` with `dx, dy` in `{-2, 0, 2}`, skipping `(0, 0)`, in
the outline colour `#000000`, then once on top at the centred position in the
fill colour `#ffffff`. -/
def badgeTextOps (force : ℕ) (num_x num_y : ℤ) : List DrawOp :=
  let number_str := toString force
  ((([-2, 0, 2] : List ℤ).map fun dx =>
      ((([-2, 0, 2] : List ℤ).map fun dy =>
          if dx ≠ 0 ∨ dy ≠ 0 then
            [DrawOp.mk (num_x + dx) (num_y + dy) number_str (color_hex_to_tuple "#000000")]
          else []).flatten)).flatten)
  ++ [DrawOp.mk num_x num_y number_str (color_hex_to_tuple "#ffffff")]

/-- C9: the numeric badge renders exactly the decimal string of the force
value: eight outline draws in black at the offsets `(dx, dy)` with
`dx, dy` in `{-2, 0, 2}` minus `(0, 0)`, followed by one centred draw on top
in white. -/
theorem C9_badge_ops (force : ℕ) (num_x num_y : ℤ) :
    badgeTextOps force num_x num_y
      = [⟨num_x + -2, num_y + -2, Nat.repr force, (0, 0, 0)⟩,
         ⟨num_x + -2, num_y + 0, Nat.repr force, (0, 0, 0)⟩,
         ⟨num_x + -2, num_y + 2, Nat.repr force, (0, 0, 0)⟩,
         ⟨num_x + 0, num_y + -2, Nat.repr force, (0, 0, 0)⟩,
         ⟨num_x + 0, num_y + 2, Nat.repr force, (0, 0, 0)⟩,
         ⟨num_x + 2, num_y + -2, Nat.repr force, (0, 0, 0)⟩,
         ⟨num_x + 2, num_y + 0, Nat.repr force, (0, 0, 0)⟩,
         ⟨num_x + 2, num_y + 2, Nat.repr force, (0, 0, 0)⟩,
         ⟨num_x, num_y, Nat.repr force, (255, 255, 255)⟩]
  ∧ toString force = Nat.repr force := by
  constructor
  · rfl
  · rfl

/-- An input record from the external data collaborator, with the fields
`generate_card_from_notion_row` reads. -/
structure NotionRow where
  name : String
  description : String
  suit : String
  points : ℕ

/-- The Python exceptions the driver code can raise. -/
inductive PyError where
  | keyError : String → PyError
  | fileNotFoundError : String → PyError
  | typeError : String → PyError
deriving DecidableEq

/-- Embedding of `SUIT_COLOR_MAP` (generate_all_cards.py, lines 7-19):
suit name to (primary, secondary) hex colours. -/
def SUIT_COLOR_MAP : List (String × String × String) :=
  [("Chat", "#D32F2F", "#FF8B8B"),
   ("Lieu", "#7E7E7E", "#9E9E9E"),
   ("Rituel", "#1976D2", "#63B7FD"),
   ("Esprit", "#388E3C", "#C8E6C9"),
   ("Festival", "#FD80C3", "#FFDDED"),
   ("Démon", "#7B1FA2", "#E1BEE7"),
   ("Relique", "#FFE100", "#FFFBD3"),
   ("Idole", "#F57C00", "#F8C578"),
   ("Nourriture", "#8D6E63", "#D7CCC8"),
   ("Potion", "#00C9B1", "#B2EBF2")]

/-- Python dict lookup `SUIT_COLOR_MAP[suit_name]`: `KeyError` when absent. -/
def lookupSuit (suit_name : String) : Except PyError (String × String) :=
  match SUIT_COLOR_MAP.find? (fun e => e.1 == suit_name) with
  | some e => .ok e.2
  | none => .error (.keyError suit_name)

/-- The parameter names `CardGenerator.__init__` declares
(card_generator.py, lines 92-97), besides `self`. -/
def cardGeneratorParams : List String :=
  ["full_card_size", "bg_color_primary", "bg_color_secondary"]

/-- Python keyword-argument checking for a call to `CardGenerator(...)`: a
keyword not among the declared parameters raises `TypeError` before the body
runs. -/
def callCardGenerator (kwargs : List String) : Except PyError Unit :=
  match kwargs.find? (fun k => !(cardGeneratorParams.contains k)) with
  | some k => .error (.typeError ("unexpected keyword argument " ++ k))
  | none => .ok ()

/-- A string holding one apostrophe (written by code point to keep the source
plain). -/
def apostropheStr : String := String.mk [Char.ofNat 39]

/-- Embedding of `slugify_name` (utils.py). -/
def slugify_name (name : String) : String :=
  ((((name.trim.toLower.replace " " "_").replace "/" "_").replace apostropheStr "").replace
    "-" "_")

/-- Embedding of `generate_card_from_notion_row` (generate_all_cards.py, lines
73-95): style lookup first (KeyError on unknown suit), then the image-path
resolution (modelled by the oracle `fs`, since `get_image_path` reads the file
system), then the `CardGenerator(bg_color_primary=..., bg_color_secondary=...,
extra_bold_words=...)` constructor call, whose unexpected keyword raises
`TypeError`; only then would `create_card` run. -/
def generate_card_from_notion_row (fs : String → Except PyError String)
    (row : NotionRow) : Except PyError (String × Unit) :=
  let card_title := row.name.trim
  match lookupSuit row.suit with
  | .error e => .error e
  | .ok _colors =>
    match fs card_title with
    | .error e => .error e
    | .ok _img_path =>
      match callCardGenerator
          ["bg_color_primary", "bg_color_secondary", "extra_bold_words"] with
      | .error e => .error e
      | .ok _ => .ok (slugify_name card_title, ())

/-- Embedding of the `__main__` loop of generate_all_cards.py (lines 98-107):
records are processed in order and there is no `try`/`except`, so an uncaught
exception aborts the whole run.  Returns the slugs saved before the abort and
the uncaught error, if any. -/
def runBatch (fs : String → Except PyError String) : List NotionRow → List String × Option PyError
  | [] => ([], none)
  | row :: rest =>
    match generate_card_from_notion_row fs row with
    | .error e => ([], some e)
    | .ok (slug, _) =>
      let r := runBatch fs rest
      (slug :: r.1, r.2)

/-- A file-system oracle on which every image path resolves. -/
def fsAlways : String → Except PyError String := fun _ => .ok "outputs/full_run/x/final.png"

/-- A record whose suit has no entry in the style table. -/
def badRow : NotionRow := { name := "Alpha", description := "d", suit := "Dragon", points := 1 }

/-- A record whose suit is in the style table. -/
def goodSuitRow : NotionRow := { name := "Beta", description := "d", suit := "Chat", points := 2 }

/-- C1 counterexample: with a two-record batch whose first record has the
unknown suit "Dragon", the driver raises KeyError and the run aborts with no
record processed — the failure is not recorded and the driver does not continue
to the next record. -/
theorem C1_counterexample :
    runBatch fsAlways [badRow, goodSuitRow] = ([], some (.keyError "Dragon"))
  ∧ generate_card_from_notion_row fsAlways badRow = .error (.keyError "Dragon") := by
  constructor <;> rfl

/-- C1 (amended): a record whose suit has no entry in the style table fails its
own build with a KeyError from the style lookup before any image work; but the
batch driver has no error handling, so the exception aborts the run at the
failing record and later records are not processed. -/
theorem C1_unknown_suit_aborts_run (fs : String → Except PyError String)
    (row : NotionRow) (rest : List NotionRow)
    (h : SUIT_COLOR_MAP.find? (fun e => e.1 == row.suit) = none) :
    generate_card_from_notion_row fs row = .error (.keyError row.suit)
  ∧ runBatch fs (row :: rest) = ([], some (.keyError row.suit)) := by
  have hgen : generate_card_from_notion_row fs row = .error (.keyError row.suit) := by
    unfold generate_card_from_notion_row lookupSuit
    rw [h]
  refine ⟨hgen, ?_⟩
  unfold runBatch
  rw [hgen]

/-- Witness for C1 (amended) at the concrete two-record batch. -/
theorem C1_witness :
    SUIT_COLOR_MAP.find? (fun e => e.1 == badRow.suit) = none
  ∧ (generate_card_from_notion_row fsAlways badRow = .error (.keyError badRow.suit)
     ∧ runBatch fsAlways (badRow :: [goodSuitRow]) = ([], some (.keyError badRow.suit))) :=
  ⟨by rfl, C1_unknown_suit_aborts_run fsAlways badRow [goodSuitRow] (by rfl)⟩

/-- Whether a result is a Python `TypeError`. -/
def isTypeError : Except PyError (String × Unit) → Bool
  | .error (.typeError _) => true
  | _ => false

/-- C2 counterexample: a record with an unknown suit raises KeyError at the
style lookup, before the constructor call — so not every record raises a
TypeError. -/
theorem C2_counterexample :
    generate_card_from_notion_row fsAlways badRow = .error (.keyError "Dragon")
  ∧ isTypeError (generate_card_from_notion_row fsAlways badRow) = false := by
  constructor <;> rfl

/-- C2 (amended): no call of `generate_card_from_notion_row` ever returns a
finished card; every record whose suit is in the style table and whose image
path resolves raises a TypeError at the `CardGenerator` constructor call,
because the declared parameters do not include `extra_bold_words` — before any
compositing. -/
theorem C2_constructor_type_error (fs : String → Except PyError String) (row : NotionRow) :
    (∀ res : String × Unit, generate_card_from_notion_row fs row ≠ .ok res)
  ∧ (∀ entry : String × String × String, ∀ p : String,
      SUIT_COLOR_MAP.find? (fun e => e.1 == row.suit) = some entry →
      fs row.name.trim = .ok p →
      generate_card_from_notion_row fs row
        = .error (.typeError "unexpected keyword argument extra_bold_words")) := by
  have hcall : callCardGenerator
      ["bg_color_primary", "bg_color_secondary", "extra_bold_words"]
      = .error (.typeError "unexpected keyword argument extra_bold_words") := rfl
  constructor
  · intro res
    unfold generate_card_from_notion_row
    cases hlk : lookupSuit row.suit with
    | error e => simp
    | ok c =>
      cases hfs : fs row.name.trim with
      | error e => simp [hfs]
      | ok p => simp [hfs, hcall]
  · intro entry p hfind hfs
    unfold generate_card_from_notion_row lookupSuit
    rw [hfind]
    simp only []
    rw [hfs, hcall]

/-- Witness for C2 (amended): the record with suit "Chat" and a resolving image
path fails with the constructor TypeError. -/
theorem C2_witness :
    SUIT_COLOR_MAP.find? (fun e => e.1 == goodSuitRow.suit)
        = some ("Chat", "#D32F2F", "#FF8B8B")
  ∧ fsAlways goodSuitRow.name.trim = .ok "outputs/full_run/x/final.png"
  ∧ generate_card_from_notion_row fsAlways goodSuitRow
      = .error (.typeError "unexpected keyword argument extra_bold_words") :=
  ⟨by rfl, by rfl,
   (C2_constructor_type_error fsAlways goodSuitRow).2 ("Chat", "#D32F2F", "#FF8B8B")
     "outputs/full_run/x/final.png" (by rfl) (by rfl)⟩
